import Mathlib

/-!
Verification of the `fpl-assistant` (NRL Fantasy) core computation components
against their natural-language specification.

The four components under scrutiny are shallow-embedded here from the Python
source:

* `nrl_fantasy/scoring/engine.py` (Scoring Engine),
* `nrl_fantasy/models/predictor.py` (Player Predictor),
* `nrl_fantasy/optimization/team_optimizer.py` (Team Optimizer),
* `nrl_fantasy/optimization/bye_planner.py` (Bye Planner).

Python floats are modelled as exact rationals (`ℚ`); Python's `round(x, n)`
(round-half-to-even) is modelled exactly by `pyRound`.  Database query results
are passed in as explicit lists, ordered as the corresponding SQL query orders
them.  Fallible or optional columns are modelled with `Option`.  CPython's
`list.sort` is a stable sort; it is embedded as `List.insertionSort`, which is
stable with the reflexive key relations used throughout.
-/

namespace NrlFantasy

/-! ## Definitions -/

/-- Python's `round` ties-to-even rounding to an integer, on exact rationals. -/
def roundHalfEven (x : ℚ) : ℤ :=
  if x - ⌊x⌋ < 1/2 then ⌊x⌋
  else if 1/2 < x - ⌊x⌋ then ⌊x⌋ + 1
  else if ⌊x⌋ % 2 = 0 then ⌊x⌋ else ⌊x⌋ + 1

/-- Python's `round(x, nd)` on exact rationals. -/
def pyRound (nd : ℕ) (x : ℚ) : ℚ := (roundHalfEven (x * 10 ^ nd) : ℚ) / 10 ^ nd

/-! ### Scoring Engine (`nrl_fantasy/scoring/engine.py`) -/

/-- A row of the `fantasy_scoring_rules` table. -/
structure ScoringRule where
  season : ℤ
  stat_key : String
  points : ℚ
  formula_type : String
  description : String
deriving DecidableEq

/-- A `PlayerMatchStats` row, restricted to the columns read by
`ScoringEngine.calculate_points`.  All stat columns are nullable. -/
structure PlayerMatchStats where
  tries : Option ℚ
  try_assists : Option ℚ
  linebreak_assists : Option ℚ
  line_breaks : Option ℚ
  run_metres : Option ℚ
  tackle_breaks : Option ℚ
  tackles : Option ℚ
  offloads : Option ℚ
  kick_metres : Option ℚ
  forced_dropouts : Option ℚ
  intercepts : Option ℚ
  missed_tackles : Option ℚ
  errors : Option ℚ
  penalties_conceded : Option ℚ
  sin_bins : Option ℚ
  send_offs : Option ℚ
deriving DecidableEq

/-- The `stat_values` mapping built inside `calculate_points`, in source order. -/
def statValues (stats : PlayerMatchStats) : List (String × Option ℚ) :=
  [("tries", stats.tries),
   ("try_assists", stats.try_assists),
   ("linebreak_assists", stats.linebreak_assists),
   ("line_breaks", stats.line_breaks),
   ("run_metres", stats.run_metres),
   ("tackle_breaks", stats.tackle_breaks),
   ("tackles", stats.tackles),
   ("offloads", stats.offloads),
   ("kick_metres", stats.kick_metres),
   ("forced_dropouts", stats.forced_dropouts),
   ("intercepts", stats.intercepts),
   ("missed_tackles", stats.missed_tackles),
   ("errors", stats.errors),
   ("penalties_conceded", stats.penalties_conceded),
   ("sin_bins", stats.sin_bins),
   ("send_offs", stats.send_offs)]

/-- Lookup in the `rules_dict` built by `_load_scoring_rules`: the dict is keyed
by `stat_key`, a later row with the same key overwriting an earlier one. -/
def rulesDictLookup (rules : List ScoringRule) (key : String) : Option ScoringRule :=
  rules.foldl (fun acc r => if r.stat_key = key then some r else acc) none

/-- `ScoringEngine._load_scoring_rules`: the rows of the scoring-rule table
whose `season` equals the engine's season (`allRules` holds the whole table). -/
def loadScoringRules (allRules : List ScoringRule) (season : ℤ) : List ScoringRule :=
  allRules.filter (fun r => decide (r.season = season))

/-- `ScoringEngine.calculate_points`: for each stat key present in the rules
dict with a non-null value, add `value * points`; round the total to one
decimal place. -/
def calculatePoints (rules : List ScoringRule) (stats : PlayerMatchStats) : ℚ :=
  pyRound 1 ((statValues stats).foldl (fun total kv =>
    match rulesDictLookup rules kv.1, kv.2 with
    | some rule, some v => total + v * rule.points
    | _, _ => total) 0)

/-- The 2024 rule set seeded by `init_db.seed_scoring_rules`. -/
def rules2024 : List ScoringRule :=
  [⟨2024, "tries", 4, "flat", "4 points per try"⟩,
   ⟨2024, "try_assists", 4, "flat", "4 points per try assist"⟩,
   ⟨2024, "linebreak_assists", 2, "flat", "2 points per linebreak assist"⟩,
   ⟨2024, "line_breaks", 4, "flat", "4 points per line break"⟩,
   ⟨2024, "run_metres", 1/10, "per_1", "1 point per 10 run metres"⟩,
   ⟨2024, "tackle_breaks", 1, "flat", "1 point per tackle break"⟩,
   ⟨2024, "tackles", 1, "flat", "1 point per tackle"⟩,
   ⟨2024, "offloads", 1, "flat", "1 point per offload"⟩,
   ⟨2024, "kick_metres", 33/1000, "per_1", "1 point per 30 kick metres"⟩,
   ⟨2024, "forced_dropouts", 1, "flat", "1 point per forced dropout"⟩,
   ⟨2024, "intercepts", 4, "flat", "4 points per intercept"⟩,
   ⟨2024, "missed_tackles", -1, "flat", "-1 point per missed tackle"⟩,
   ⟨2024, "errors", -3, "flat", "-3 points per error"⟩,
   ⟨2024, "penalties_conceded", -3, "flat", "-3 points per penalty conceded"⟩,
   ⟨2024, "sin_bins", -10, "flat", "-10 points per sin bin"⟩,
   ⟨2024, "send_offs", -20, "flat", "-20 points per send off"⟩]

/-- The spec's golden stat line: tries=1, run_metres=100, tackle_breaks=3,
tackles=30, offloads=2, missed_tackles=2, errors=1, all else 0. -/
def goldenStats : PlayerMatchStats :=
  { tries := some 1, try_assists := some 0, linebreak_assists := some 0,
    line_breaks := some 0, run_metres := some 100, tackle_breaks := some 3,
    tackles := some 30, offloads := some 2, kick_metres := some 0,
    forced_dropouts := some 0, intercepts := some 0, missed_tackles := some 2,
    errors := some 1, penalties_conceded := some 0, sin_bins := some 0,
    send_offs := some 0 }

/-- The scoring contract as the spec words it, for comparison with the
source's `calculate_points`: fail with a `ConfigurationError` when no rule set
exists for the season, otherwise score.  The source has no such error path. -/
def scoreSpecModel (allRules : List ScoringRule) (season : ℤ)
    (stats : PlayerMatchStats) : Except String ℚ :=
  if loadScoringRules allRules season = [] then
    Except.error "ConfigurationError"
  else
    Except.ok (calculatePoints (loadScoringRules allRules season) stats)

/-! ### Player Predictor (`nrl_fantasy/models/predictor.py`) -/

/-- The `features` dict returned by `predict_next_round` on the
weighted-average path. -/
structure PredFeatures where
  avg_all_games : ℚ
  avg_last_3 : ℚ
  avg_minutes : ℚ
  games_analyzed : ℕ
  std_dev : ℚ
deriving DecidableEq

/-- The dict returned by `PlayerPredictor.predict_next_round`.  `features` is
`none` for the empty `{}` dict of the no-history branch. -/
structure PredResult where
  player_id : ℤ
  predicted_points : ℚ
  confidence : ℚ
  method : String
  features : Option PredFeatures
deriving DecidableEq

/-- Arithmetic mean, `sum(xs) / len(xs)`. -/
def mean (pts : List ℚ) : ℚ := pts.sum / pts.length

/-- The population variance computed in `predict_next_round`:
`sum((p - avg_all) ** 2 for p in all_points) / len(all_points)`. -/
def listVariance (pts : List ℚ) : ℚ :=
  ((pts.map (fun p => (p - mean pts) ^ 2)).sum) / pts.length

/-- `weights = [0.4, 0.3, 0.2, 0.1] if len(all_points) >= 4 else
[1.0 / len(all_points)] * len(all_points)`. -/
def predWeights (n : ℕ) : List ℚ :=
  if 4 ≤ n then [2/5, 3/10, 1/5, 1/10] else List.replicate n (1 / (n : ℚ))

/-- `weighted_points = sum(p * w for p, w in zip(all_points[:4], weights[:len(all_points)]))`. -/
def weightedPoints (pts : List ℚ) : ℚ :=
  (((pts.take 4).zip ((predWeights pts.length).take pts.length)).map
    (fun pw => pw.1 * pw.2)).sum

/-- `last_3_points = all_points[:3] if len(all_points) >= 3 else all_points`,
averaged. -/
def avgLast3 (pts : List ℚ) : ℚ :=
  mean (if 3 ≤ pts.length then pts.take 3 else pts)

/-- `PlayerPredictor.predict_next_round`.  `history` is the list of
`fantasy_points` of the player's recent `FantasyScore` rows, most recent
first, as delivered by the query (hence at most `lookback` long); `minutes`
likewise holds the `minutes` column of the player's recent match-stat rows.
`std` is passed in as the exact (possibly irrational, hence not computable on
`ℚ`) square root `variance ** 0.5` of the source; the theorems pin it down by
the hypotheses `0 ≤ std` and `std ^ 2 = listVariance history`.  The
no-history branch returns before any of this is computed. -/
def predictNextRound (lookback : ℕ) (playerId : ℤ) (history : List ℚ)
    (minutes : List ℚ) (std : ℚ) : PredResult :=
  match history with
  | [] =>
    { player_id := playerId, predicted_points := 35, confidence := 3/10,
      method := "no_history", features := none }
  | _ :: _ =>
    let all_points := history
    let avg_all := mean all_points
    let avg_minutes : ℚ := if minutes = [] then 60 else minutes.sum / minutes.length
    let minutes_factor := min 1 (avg_minutes / 70)
    let predicted_points := weightedPoints all_points * minutes_factor
    let consistency_score := max (3/10) (1 - std / max 1 avg_all)
    let data_score := min 1 ((all_points.length : ℚ) / (lookback : ℚ))
    let confidence := consistency_score * (7/10) + data_score * (3/10)
    { player_id := playerId,
      predicted_points := pyRound 1 predicted_points,
      confidence := pyRound 2 confidence,
      method := "weighted_average",
      features := some
        { avg_all_games := pyRound 1 avg_all,
          avg_last_3 := pyRound 1 (avgLast3 all_points),
          avg_minutes := pyRound 1 avg_minutes,
          games_analyzed := all_points.length,
          std_dev := pyRound 1 std } }

/-! ### Team Optimizer (`nrl_fantasy/optimization/team_optimizer.py`) -/

/-- One `(Projection, Player)` row of the `suggest_captain` query, restricted
to the fields the method reads. -/
structure ProjEntry where
  player_id : ℤ
  player_name : String
  team : String
  predicted_points : ℚ
  confidence : ℚ
  avg_minutes : Option ℚ
  avg_last_3 : Option ℚ
deriving DecidableEq

/-- The dict appended to `scored_players` in `suggest_captain`. -/
structure ScoredPlayer where
  player_id : ℤ
  player_name : String
  predicted_points : ℚ
  confidence : ℚ
  score : ℚ
  reason : String
deriving DecidableEq

/-- `TeamOptimizer._generate_captain_reason`.  Python's truthiness guard
`if projection.avg_minutes and ...` only filters out `None` and `0.0`, and
`0.0 > 70` is false anyway, so the comparison alone is faithful. -/
def generateCaptainReason (e : ProjEntry) : String :=
  let reasons :=
    (if 60 < e.predicted_points then ["high scoring potential"] else []) ++
    (if 7/10 < e.confidence then ["consistent form"] else []) ++
    (match e.avg_minutes with
     | some m => if 70 < m then ["plays big minutes"] else []
     | none => []) ++
    (match e.avg_last_3 with
     | some a => if 55 < a then ["strong recent form"] else []
     | none => [])
  let reasons2 := if reasons = [] then ["solid all-around option"] else reasons
  e.team ++ " star with " ++ String.intercalate ", " reasons2

/-- The scored dict built for one projection row:
`score = predicted_points * confidence`. -/
def mkScored (e : ProjEntry) : ScoredPlayer :=
  { player_id := e.player_id, player_name := e.player_name,
    predicted_points := e.predicted_points, confidence := e.confidence,
    score := e.predicted_points * e.confidence,
    reason := generateCaptainReason e }

/-- Key relation of `scored_players.sort(key=score, reverse=True)`. -/
def scoreGe (a b : ScoredPlayer) : Prop := b.score ≤ a.score

instance : DecidableRel scoreGe := fun a b => inferInstanceAs (Decidable (b.score ≤ a.score))

instance : IsTotal ScoredPlayer scoreGe := ⟨fun a b => le_total b.score a.score⟩

instance : IsTrans ScoredPlayer scoreGe := ⟨fun _ _ _ h1 h2 => le_trans h2 h1⟩

/-- `TeamOptimizer.suggest_captain`: `(None, None)` on an empty projection
set; otherwise score everybody, sort descending (stably), return the first
two entries.  `projections` is the query result for the squad. -/
def suggestCaptain (projections : List ProjEntry) :
    Option ScoredPlayer × Option ScoredPlayer :=
  match projections with
  | [] => (none, none)
  | _ :: _ =>
    let scored := projections.map mkScored
    let sorted := List.insertionSort scoreGe scored
    (sorted.head?, sorted[1]?)

/-- The earliest element of maximal score: a later element displaces an
earlier one only with a strictly greater score.  This is the tie-breaking
order of a stable descending sort, used to state determinism of the captain
pick. -/
def firstMaxScore? : List ScoredPlayer → Option ScoredPlayer
  | [] => none
  | x :: xs =>
    match firstMaxScore? xs with
    | none => some x
    | some m => if x.score < m.score then some m else some x

/-- One `(Projection, Player, FantasyPriceHistory)` row of the two
`suggest_trades` queries; `price` is `None` when the outer join found no
price-history row for the previous round. -/
structure TradeRow where
  player_id : ℤ
  name : String
  team : String
  positions : String
  predicted_points : ℚ
  price : Option ℚ
deriving DecidableEq

/-- `calc_value`: `(proj.predicted_points / max(1, price)) * 100` with the
default price 400 for a missing price-history row. -/
def calcValue (pp : ℚ) (price : Option ℚ) : ℚ := pp / max 1 (price.getD 400) * 100

/-- The per-player dict built in both halves of `suggest_trades`. -/
structure PlayerVal where
  player_id : ℤ
  name : String
  team : String
  position : String
  predicted_points : ℚ
  price : ℚ
  value : ℚ
deriving DecidableEq

def mkPlayerVal (r : TradeRow) : PlayerVal :=
  { player_id := r.player_id, name := r.name, team := r.team,
    position := r.positions, predicted_points := r.predicted_points,
    price := r.price.getD 400, value := calcValue r.predicted_points r.price }

/-- Key relation of `squad_values.sort(key=value)` (ascending, stable). -/
def valueLe (a b : PlayerVal) : Prop := a.value ≤ b.value

instance : DecidableRel valueLe := fun a b => inferInstanceAs (Decidable (a.value ≤ b.value))

instance : IsTotal PlayerVal valueLe := ⟨fun a b => le_total a.value b.value⟩

instance : IsTrans PlayerVal valueLe := ⟨fun _ _ _ h1 h2 => le_trans h1 h2⟩

/-- Key relation of `available_values.sort(key=value, reverse=True)`. -/
def valueGe (a b : PlayerVal) : Prop := b.value ≤ a.value

instance : DecidableRel valueGe := fun a b => inferInstanceAs (Decidable (b.value ≤ a.value))

instance : IsTotal PlayerVal valueGe := ⟨fun a b => le_total b.value a.value⟩

instance : IsTrans PlayerVal valueGe := ⟨fun _ _ _ h1 h2 => le_trans h2 h1⟩

/-- The squad side of `suggest_trades`: value every squad row, sort ascending
by value. -/
def squadValues (squadRows : List TradeRow) : List PlayerVal :=
  List.insertionSort valueLe (squadRows.map mkPlayerVal)

/-- The market side of `suggest_trades`: keep only affordable rows
(`price <= bank_balance + 100`), value them, sort descending by value. -/
def availableValues (availRows : List TradeRow) (bank : ℚ) : List PlayerVal :=
  List.insertionSort valueGe
    ((availRows.map mkPlayerVal).filter (fun v => decide (v.price ≤ bank + 100)))

/-- The dict appended to `trade_suggestions`. -/
structure TradeSuggestion where
  trade_out_id : ℤ
  trade_out_name : String
  trade_in_id : ℤ
  trade_in_name : String
  projected_gain : ℚ
  price_difference : ℚ
  reason : String
deriving DecidableEq

/-- `TeamOptimizer._generate_trade_reason`.  The Python `f"{x:.1f}"` decimal
formatting of the gain is abstracted as exact rational rendering; no claim
depends on the text. -/
def generateTradeReason (trade_in : PlayerVal) (value_gain points_gain : ℚ) : String :=
  let reasons :=
    (if 15 < points_gain then ["+" ++ toString points_gain ++ " projected points"]
     else if 0 < points_gain then ["+" ++ toString points_gain ++ " pts"] else []) ++
    (if 1 < value_gain then ["excellent value"]
     else if 1/2 < value_gain then ["good value"] else []) ++
    (if 60 < trade_in.predicted_points then ["premium scorer"] else [])
  let reasons2 := if reasons = [] then ["strategic upgrade"] else reasons
  String.intercalate ", " reasons2

def mkTradeSuggestion (o i : PlayerVal) : TradeSuggestion :=
  { trade_out_id := o.player_id, trade_out_name := o.name,
    trade_in_id := i.player_id, trade_in_name := i.name,
    projected_gain := pyRound 1 (i.predicted_points - o.predicted_points),
    price_difference := i.price - o.price,
    reason := generateTradeReason i (i.value - o.value)
      (i.predicted_points - o.predicted_points) }

/-- The nested candidate loop of `suggest_trades`: bottom-3 squad players by
value against the top-10 affordable players by value, a pair accepted when
`value_gain > 0.5 or points_gain > 10`, in loop order. -/
def acceptedSuggestions (squadRows availRows : List TradeRow) (bank : ℚ) :
    List TradeSuggestion :=
  ((squadValues squadRows).take 3).flatMap (fun o =>
    ((availableValues availRows bank).take 10).filterMap (fun i =>
      if 1/2 < i.value - o.value ∨ 10 < i.predicted_points - o.predicted_points
      then some (mkTradeSuggestion o i) else none))

/-- Key relation of `trade_suggestions.sort(key=projected_gain, reverse=True)`. -/
def gainGe (a b : TradeSuggestion) : Prop := b.projected_gain ≤ a.projected_gain

instance : DecidableRel gainGe := fun a b => inferInstanceAs (Decidable (b.projected_gain ≤ a.projected_gain))

instance : IsTotal TradeSuggestion gainGe := ⟨fun a b => le_total b.projected_gain a.projected_gain⟩

instance : IsTrans TradeSuggestion gainGe := ⟨fun _ _ _ h1 h2 => le_trans h2 h1⟩

/-- `TeamOptimizer.suggest_trades`: rank the accepted pairs by projected gain
descending and truncate to `limit`. -/
def suggestTrades (squadRows availRows : List TradeRow) (bank : ℚ) (limit : ℕ) :
    List TradeSuggestion :=
  (List.insertionSort gainGe (acceptedSuggestions squadRows availRows bank)).take limit

/-! ### Bye Planner (`nrl_fantasy/optimization/bye_planner.py`) -/

/-- A `Player` row, restricted to the columns the bye planner reads. -/
structure PlayerRec where
  id : ℤ
  name : String
  team : String
  positions : String
deriving DecidableEq

/-- `ByePlanner.bye_schedule` (insertion order 13..17, as iterated by the
Python dict). -/
def byeSchedule : List (ℕ × List String) :=
  [(13, ["Penrith Panthers", "Melbourne Storm", "Brisbane Broncos", "Cronulla Sharks"]),
   (14, ["Sydney Roosters", "Parramatta Eels", "South Sydney Rabbitohs", "Manly Sea Eagles"]),
   (15, ["Newcastle Knights", "North Queensland Cowboys", "Canberra Raiders", "New Zealand Warriors"]),
   (16, ["Gold Coast Titans", "St George Illawarra Dragons"]),
   (17, ["Canterbury Bulldogs", "Wests Tigers"])]

/-- `ByePlanner.get_team_bye_round`: first schedule round listing the team,
0 when the team has no bye. -/
def getTeamByeRound (team : String) : ℕ :=
  match byeSchedule.find? (fun rt => decide (team ∈ rt.2)) with
  | some rt => rt.1
  | none => 0

/-- One round's entry of the `bye_distribution` dict. -/
structure RoundCoverage where
  teams_on_bye : List String
  players_on_bye : List PlayerRec
  players_available : List ℤ
deriving DecidableEq

/-- The initial `bye_distribution` built for rounds `range(13, 18)`:
`teams_on_bye = bye_schedule.get(round_num, [])`, empty player lists. -/
def byeDistInit : List (ℕ × RoundCoverage) :=
  (List.range' 13 5).map (fun r =>
    (r, { teams_on_bye := (byeSchedule.find? (fun rt => decide (rt.1 = r))).elim [] (fun rt => rt.2),
          players_on_bye := [], players_available := [] }))

/-- The body of the player loop in `analyze_squad_bye_coverage`: append the
player to `players_on_bye` of their bye round (when they have one) and to
`players_available` of every other round of the window. -/
def addPlayerToDist (dist : List (ℕ × RoundCoverage)) (p : PlayerRec) :
    List (ℕ × RoundCoverage) :=
  dist.map (fun rc =>
    let b := getTeamByeRound p.team
    let cov1 := if 0 < b ∧ rc.1 = b then
        { rc.2 with players_on_bye := rc.2.players_on_bye ++ [p] } else rc.2
    let cov2 := if rc.1 ≠ b then
        { cov1 with players_available := cov1.players_available ++ [p.id] } else cov1
    (rc.1, cov2))

/-- `ByePlanner.analyze_squad_bye_coverage`.  `squad` is the list of `Player`
rows the `id.in_(squad)` query returns; `season` is accepted and unused, as in
the source. -/
def analyzeSquadByeCoverage (squad : List PlayerRec) (season : ℤ) :
    List (ℕ × RoundCoverage) :=
  squad.foldl addPlayerToDist byeDistInit

/-- `ByePlanner._get_all_teams`. -/
def allTeams : List String :=
  ["Penrith Panthers", "Melbourne Storm", "Brisbane Broncos", "Sydney Roosters",
   "Parramatta Eels", "Cronulla Sharks", "South Sydney Rabbitohs", "Manly Sea Eagles",
   "Newcastle Knights", "North Queensland Cowboys", "Canberra Raiders", "New Zealand Warriors",
   "Gold Coast Titans", "St George Illawarra Dragons", "Canterbury Bulldogs", "Wests Tigers"]

/-- One `(Player, Projection)` join row of the `_find_replacement` query. -/
structure ProjRow where
  player : PlayerRec
  season : ℤ
  round : ℕ
  predicted_points : ℚ
  confidence : ℚ
deriving DecidableEq

/-- Character-list prefix test, written out by hand. -/
def charsLead : List Char → List Char → Bool
  | [], _ => true
  | _ :: _, [] => false
  | a :: as, b :: bs => a == b && charsLead as bs

/-- Character-list substring test. -/
def charsSub (pat : List Char) : List Char → Bool
  | [] => charsLead pat []
  | s@(_ :: rest) => charsLead pat s || charsSub pat rest

/-- `Player.positions.like(f"%{position}%")`: substring containment. -/
def strContainsSub (s pat : String) : Bool := charsSub pat.data s.data

/-- The dict `_find_replacement` returns. -/
structure Replacement where
  id : ℤ
  name : String
  team : String
  position : String
  predicted_points : ℚ
  confidence : ℚ
deriving DecidableEq

/-- Key relation of `ORDER BY Projection.predicted_points DESC`.  SQL leaves
the order of ties unspecified; the embedding fixes the stable descending
order on the row list. -/
def ppGe (a b : ProjRow) : Prop := b.predicted_points ≤ a.predicted_points

instance : DecidableRel ppGe := fun a b => inferInstanceAs (Decidable (b.predicted_points ≤ a.predicted_points))

instance : IsTotal ProjRow ppGe := ⟨fun a b => le_total b.predicted_points a.predicted_points⟩

instance : IsTrans ProjRow ppGe := ⟨fun _ _ _ h1 h2 => le_trans h2 h1⟩

/-- `ByePlanner._find_replacement`: best-projected player of the active teams
sharing the position (LIKE-substring match), for the season and round;
`None` when no row qualifies. -/
def findReplacement (db : List ProjRow) (position : String)
    (activeTeams : List String) (season : ℤ) (roundNum : ℕ) : Option Replacement :=
  let players := (List.insertionSort ppGe (db.filter (fun row =>
      decide (row.player.team ∈ activeTeams) &&
      strContainsSub row.player.positions position &&
      decide (row.season = season) && decide (row.round = roundNum)))).take 5
  match players with
  | [] => none
  | row :: _ =>
    some { id := row.player.id, name := row.player.name, team := row.player.team,
           position := row.player.positions,
           predicted_points := row.predicted_points, confidence := row.confidence }

/-- The `trade_out` sub-dict of a bye trade suggestion. -/
structure ByeTradeOut where
  id : ℤ
  name : String
  team : String
  bye_round : ℕ
deriving DecidableEq

/-- The dict appended to `trade_suggestions` in `suggest_bye_trades`.
`round` is the recommended trade round (the round before the bye). -/
structure ByeTradeSuggestion where
  round : ℕ
  trade_out : ByeTradeOut
  trade_in : Replacement
  reason : String
  priority : String
deriving DecidableEq

/-- The inner player loop of `suggest_bye_trades` for one critical round:
stop when the trade budget is exhausted, skip players with no replacement,
otherwise emit a suggestion and count a trade.  Returns the emitted
suggestions and the updated `trades_used`. -/
def byeTradesForRound (db : List ProjRow) (season : ℤ) (trades_available : ℕ)
    (roundNum : ℕ) (teamsOnBye : List String) (byeCount : ℕ) :
    List PlayerRec → ℕ → List ByeTradeSuggestion × ℕ
  | [], used => ([], used)
  | p :: ps, used =>
    if trades_available ≤ used then ([], used)
    else
      let activeTeams := allTeams.filter (fun t => decide (t ∉ teamsOnBye))
      match findReplacement db p.positions activeTeams season roundNum with
      | some rep =>
        let s : ByeTradeSuggestion :=
          { round := roundNum - 1,
            trade_out := { id := p.id, name := p.name, team := p.team, bye_round := roundNum },
            trade_in := rep,
            reason := "Avoid " ++ toString byeCount ++ " players on bye in round " ++
              toString roundNum,
            priority := if 3 < byeCount then "high" else "medium" }
        let rest := byeTradesForRound db season trades_available roundNum teamsOnBye
          byeCount ps (used + 1)
        (s :: rest.1, rest.2)
      | none => byeTradesForRound db season trades_available roundNum teamsOnBye byeCount ps used

/-- Key relation of
`sorted(bye_analysis.items(), key=len(players_on_bye), reverse=True)`. -/
def countGe (a b : ℕ × RoundCoverage) : Prop :=
  b.2.players_on_bye.length ≤ a.2.players_on_bye.length

instance : DecidableRel countGe := fun a b => inferInstanceAs (Decidable (b.2.players_on_bye.length ≤ a.2.players_on_bye.length))

instance : IsTotal (ℕ × RoundCoverage) countGe := ⟨fun a b => le_total b.2.players_on_bye.length a.2.players_on_bye.length⟩

instance : IsTrans (ℕ × RoundCoverage) countGe := ⟨fun _ _ _ h1 h2 => le_trans h2 h1⟩

/-- The outer round loop of `suggest_bye_trades` over the critical rounds,
threading `trades_used`. -/
def byeTradesLoop (db : List ProjRow) (season : ℤ) (trades_available : ℕ) :
    List (ℕ × RoundCoverage) → ℕ → List ByeTradeSuggestion
  | [], _ => []
  | (r, cov) :: rest, used =>
    if cov.players_on_bye.length ≤ 2 then
      byeTradesLoop db season trades_available rest used
    else
      let inner := byeTradesForRound db season trades_available r cov.teams_on_bye
        cov.players_on_bye.length
        (cov.players_on_bye.take (min 2 cov.players_on_bye.length)) used
      inner.1 ++ byeTradesLoop db season trades_available rest inner.2

/-- `ByePlanner.suggest_bye_trades`: analyze the squad, order the window
rounds by bye-player count descending, loop with the trade budget. -/
def suggestByeTrades (db : List ProjRow) (squad : List PlayerRec) (season : ℤ)
    (trades_available : ℕ) : List ByeTradeSuggestion :=
  byeTradesLoop db season trades_available
    (List.insertionSort countGe (analyzeSquadByeCoverage squad season)) 0

/-- The `players_on_bye` list of round `r` in closed filter form (established
against the source's accumulation loop by `foldl_addPlayer`). -/
def onByeFilter (squad : List PlayerRec) (r : ℕ) : List PlayerRec :=
  squad.filter (fun p =>
    decide (0 < getTeamByeRound p.team ∧ r = getTeamByeRound p.team))

/-- The `players_available` id list of round `r` in closed filter form
(established against the source's accumulation loop by `foldl_addPlayer`). -/
def availFilter (squad : List PlayerRec) (r : ℕ) : List ℤ :=
  (squad.filter (fun p => decide (r ≠ getTeamByeRound p.team))).map PlayerRec.id

/-- The number of squad players whose team's bye falls in round `r` — the
`len(players_on_bye)` of that round. -/
def onByeCount (squad : List PlayerRec) (r : ℕ) : ℕ :=
  (onByeFilter squad r).length

/-! ### Concrete sample inputs used by witnesses -/

def demoProjA : ProjEntry := ⟨1, "Alpha", "Penrith Panthers", 40, 1/2, none, none⟩

def demoProjB : ProjEntry := ⟨2, "Beta", "Melbourne Storm", 60, 1/2, none, none⟩

def demoOutRow : TradeRow := ⟨1, "Out", "Penrith Panthers", "HOK", 10, some 200⟩

def demoInRow : TradeRow := ⟨2, "In", "Melbourne Storm", "HOK", 50, some 300⟩

def demoSquadPlayer : PlayerRec := ⟨1, "Alpha", "Penrith Panthers", "HOK"⟩

end NrlFantasy

namespace NrlFantasy

/-! ## Theorems -/

theorem roundHalfEven_le_add_half (x : ℚ) : (roundHalfEven x : ℚ) ≤ x + 1/2 := by
  unfold roundHalfEven
  have h1 : (⌊x⌋ : ℚ) ≤ x := Int.floor_le x
  have h2 : x < (⌊x⌋ : ℚ) + 1 := Int.lt_floor_add_one x
  split_ifs with hf hg he <;> push_cast <;> linarith

theorem sub_half_le_roundHalfEven (x : ℚ) : x - 1/2 ≤ (roundHalfEven x : ℚ) := by
  unfold roundHalfEven
  have h1 : (⌊x⌋ : ℚ) ≤ x := Int.floor_le x
  have h2 : x < (⌊x⌋ : ℚ) + 1 := Int.lt_floor_add_one x
  split_ifs with hf hg he <;> push_cast <;> linarith

theorem int_le_roundHalfEven {k : ℤ} {x : ℚ} (h : (k : ℚ) ≤ x) :
    k ≤ roundHalfEven x := by
  have hb := sub_half_le_roundHalfEven x
  have h2 : ((k - 1 : ℤ) : ℚ) < (roundHalfEven x : ℚ) := by push_cast; linarith
  have h3 : k - 1 < roundHalfEven x := by exact_mod_cast h2
  omega

theorem roundHalfEven_le_int {k : ℤ} {x : ℚ} (h : x ≤ (k : ℚ)) :
    roundHalfEven x ≤ k := by
  have hb := roundHalfEven_le_add_half x
  have h2 : (roundHalfEven x : ℚ) < ((k + 1 : ℤ) : ℚ) := by push_cast; linarith
  have h3 : roundHalfEven x < k + 1 := by exact_mod_cast h2
  omega

theorem roundHalfEven_intCast (k : ℤ) : roundHalfEven (k : ℚ) = k := by
  unfold roundHalfEven
  rw [Int.floor_intCast]
  simp

theorem pyRound_intCast (nd : ℕ) (k : ℤ) : pyRound nd (k : ℚ) = k := by
  unfold pyRound
  have h : ((k : ℚ) * 10 ^ nd) = ((k * 10 ^ nd : ℤ) : ℚ) := by push_cast; ring
  rw [h, roundHalfEven_intCast]
  have hp : ((10 : ℚ) ^ nd) ≠ 0 := by positivity
  push_cast
  field_simp

theorem le_pyRound {nd : ℕ} {x : ℚ} {k : ℤ} (h : (k : ℚ) ≤ x * 10 ^ nd) :
    (k : ℚ) / 10 ^ nd ≤ pyRound nd x := by
  unfold pyRound
  have h1 : (k : ℚ) ≤ (roundHalfEven (x * 10 ^ nd) : ℚ) := by
    exact_mod_cast int_le_roundHalfEven h
  have hp : (0 : ℚ) ≤ 10 ^ nd := by positivity
  exact div_le_div_of_nonneg_right h1 hp

theorem pyRound_le {nd : ℕ} {x : ℚ} {k : ℤ} (h : x * 10 ^ nd ≤ (k : ℚ)) :
    pyRound nd x ≤ (k : ℚ) / 10 ^ nd := by
  unfold pyRound
  have h1 : (roundHalfEven (x * 10 ^ nd) : ℚ) ≤ (k : ℚ) := by
    exact_mod_cast roundHalfEven_le_int h
  have hp : (0 : ℚ) ≤ 10 ^ nd := by positivity
  exact div_le_div_of_nonneg_right h1 hp

theorem pyRound_sixty : pyRound 1 (60 : ℚ) = 60 := by
  have h := pyRound_intCast 1 60
  norm_num at h
  exact h

theorem predictNextRound_cons (lookback : ℕ) (playerId : ℤ) (p : ℚ) (ps : List ℚ)
    (minutes : List ℚ) (std : ℚ) :
    predictNextRound lookback playerId (p :: ps) minutes std =
    { player_id := playerId,
      predicted_points := pyRound 1 (weightedPoints (p :: ps) *
        min 1 ((if minutes = [] then 60 else minutes.sum / minutes.length) / 70)),
      confidence := pyRound 2 (max (3/10) (1 - std / max 1 (mean (p :: ps))) * (7/10) +
        min 1 (((p :: ps).length : ℚ) / (lookback : ℚ)) * (3/10)),
      method := "weighted_average",
      features := some
        { avg_all_games := pyRound 1 (mean (p :: ps)),
          avg_last_3 := pyRound 1 (avgLast3 (p :: ps)),
          avg_minutes := pyRound 1 (if minutes = [] then 60 else minutes.sum / minutes.length),
          games_analyzed := (p :: ps).length,
          std_dev := pyRound 1 std } } := rfl

theorem listVariance_singleton (p : ℚ) : listVariance [p] = 0 := by
  simp [listVariance, mean]

theorem pyRound_zero (nd : ℕ) : pyRound nd 0 = 0 := by
  have h := pyRound_intCast nd 0
  norm_num at h
  exact h

/-- C6: scoring the golden stat line (tries=1, run_metres=100,
tackle_breaks=3, tackles=30, offloads=2, missed_tackles=2, errors=1, all
else 0) under the 2024 rule set yields exactly 44.0 points. -/
theorem golden_case_2024 :
    calculatePoints (loadScoringRules rules2024 2024) goldenStats = 44 := by
  simp only [calculatePoints, statValues, rulesDictLookup, loadScoringRules, rules2024,
    goldenStats, List.filter, List.foldl]
  simp
  norm_num [pyRound, roundHalfEven]

/-- C1, counterexample: season 2023 has no rule set, yet `calculate_points`
(whose engine loaded an empty rules dict for 2023) returns the numeric score
0.0 for the golden stat line instead of failing with the
`ConfigurationError` that the spec-modelled contract produces — the source
has no error path at all for a missing rule set. -/
theorem scoring_missing_rules_counterexample :
    loadScoringRules rules2024 2023 = [] ∧
    calculatePoints (loadScoringRules rules2024 2023) goldenStats = 0 ∧
    scoreSpecModel rules2024 2023 goldenStats = Except.error "ConfigurationError" := by
  have hload : loadScoringRules rules2024 2023 = [] := by
    simp [loadScoringRules, rules2024]
  refine ⟨hload, ?_, ?_⟩
  · rw [hload]
    simp only [calculatePoints, statValues, rulesDictLookup, List.foldl]
    exact pyRound_zero 1
  · simp [scoreSpecModel, hload]

/-- C1, amended: when no scoring rule exists for the engine's season, the
engine's rules dict is empty and `calculate_points` returns 0.0 for every
stat line — it neither raises an error nor substitutes another season's rule
set. -/
theorem scoring_missing_rules_amended (allRules : List ScoringRule) (season : ℤ)
    (stats : PlayerMatchStats) (h : loadScoringRules allRules season = []) :
    calculatePoints (loadScoringRules allRules season) stats = 0 := by
  rw [h]
  simp only [calculatePoints, statValues, rulesDictLookup, List.foldl]
  exact pyRound_zero 1

theorem scoring_missing_rules_amended_witness :
    calculatePoints (loadScoringRules rules2024 2023) goldenStats = 0 :=
  scoring_missing_rules_amended rules2024 2023 goldenStats
    (by simp [loadScoringRules, rules2024])

/-- C7: on an empty score history, `predict_next_round` returns exactly the
fixed default — 35.0 predicted points, confidence 0.3, method
`"no_history"`, empty feature snapshot — totally (no averaging over zero
samples, no exception), for every lookback window, player and minutes
input. -/
theorem predict_empty_history_default (lookback : ℕ) (playerId : ℤ)
    (minutes : List ℚ) (std : ℚ) :
    predictNextRound lookback playerId [] minutes std =
      { player_id := playerId, predicted_points := 35, confidence := 3/10,
        method := "no_history", features := none } := rfl

/-- C2: for a non-empty history the returned confidence is
`round(0.7 * consistency + 0.3 * data_sufficiency, 2)` with
`consistency = max(0.3, 1 - std/max(1, mean))` and
`data_sufficiency = min(1, n/lookback)` (lookback 5, the only value the
callers use), and it always lies in [0.3, 1]; on an empty history it is
exactly 0.3.  `std` is the exact square root of the history's variance. -/
theorem predict_confidence_in_range (playerId : ℤ) (history minutes : List ℚ) (std : ℚ)
    (hne : history ≠ []) (hstd : 0 ≤ std) (hsq : std ^ 2 = listVariance history) :
    (predictNextRound 5 playerId history minutes std).confidence =
      pyRound 2 (max (3/10) (1 - std / max 1 (mean history)) * (7/10) +
        min 1 ((history.length : ℚ) / 5) * (3/10)) ∧
    3/10 ≤ (predictNextRound 5 playerId history minutes std).confidence ∧
    (predictNextRound 5 playerId history minutes std).confidence ≤ 1 ∧
    (predictNextRound 5 playerId [] minutes std).confidence = 3/10 := by
  obtain ⟨p, ps, rfl⟩ := List.exists_cons_of_ne_nil hne
  set c := max (3/10 : ℚ) (1 - std / max 1 (mean (p :: ps))) with hc
  set d := min (1 : ℚ) (((p :: ps).length : ℚ) / 5) with hd
  have hconf_eq : (predictNextRound 5 playerId (p :: ps) minutes std).confidence
      = pyRound 2 (c * (7/10) + d * (3/10)) := by
    rw [predictNextRound_cons]
    norm_num [hc, hd]
  have hc1 : 3/10 ≤ c := le_max_left _ _
  have hc2 : c ≤ 1 := by
    apply max_le (by norm_num)
    have h0 : (0 : ℚ) ≤ std / max 1 (mean (p :: ps)) :=
      div_nonneg hstd (le_trans zero_le_one (le_max_left 1 _))
    linarith
  have hd2 : d ≤ 1 := min_le_left _ _
  have hlow : 33/100 ≤ c * (7/10) + d * (3/10) := by
    rcases ps with _ | ⟨q, qs⟩
    · have hv : std ^ 2 = 0 := by rw [hsq, listVariance_singleton]
      have hstd0 : std = 0 := pow_eq_zero_iff two_ne_zero |>.mp hv
      have hcc : c = 1 := by
        rw [hc, hstd0, zero_div]
        norm_num
      have hdd : d = 1/5 := by
        rw [hd]
        norm_num
      rw [hcc, hdd]; norm_num
    · have hn : (2 : ℚ) ≤ ((p :: q :: qs).length : ℚ) := by
        have h2 : 2 ≤ (p :: q :: qs).length := by simp
        exact_mod_cast h2
      have hd1 : 2/5 ≤ d := by
        rw [hd]
        apply le_min (by norm_num)
        linarith
      linarith
  have hhigh : c * (7/10) + d * (3/10) ≤ 1 := by linarith
  refine ⟨hconf_eq, ?_, ?_, rfl⟩
  · rw [hconf_eq]
    have h33 : ((33 : ℤ) : ℚ) ≤ (c * (7/10) + d * (3/10)) * 10 ^ 2 := by push_cast; linarith
    have hle := le_pyRound h33
    calc (3/10 : ℚ) ≤ ((33 : ℤ) : ℚ) / 10 ^ 2 := by norm_num
    _ ≤ _ := hle
  · rw [hconf_eq]
    have h100 : (c * (7/10) + d * (3/10)) * 10 ^ 2 ≤ ((100 : ℤ) : ℚ) := by push_cast; linarith
    have hle := pyRound_le h100
    calc pyRound 2 (c * (7/10) + d * (3/10)) ≤ ((100 : ℤ) : ℚ) / 10 ^ 2 := hle
    _ = 1 := by norm_num

theorem predict_confidence_in_range_witness :
    (predictNextRound 5 1 [0, 100] [] 50).confidence =
      pyRound 2 (max (3/10) (1 - 50 / max 1 (mean [0, 100])) * (7/10) +
        min 1 ((([0, 100] : List ℚ).length : ℚ) / 5) * (3/10)) ∧
    3/10 ≤ (predictNextRound 5 1 [0, 100] [] 50).confidence ∧
    (predictNextRound 5 1 [0, 100] [] 50).confidence ≤ 1 ∧
    (predictNextRound 5 1 [] [] 50).confidence = 3/10 :=
  predict_confidence_in_range 1 [0, 100] [] 50 (by simp) (by norm_num)
    (by norm_num [listVariance, mean])

/-- C10: with a non-empty history but no match-stat rows, average minutes
defaults to 60, so the prediction is the weighted average of recent scores
multiplied by the minutes factor `min(1, 60/70) = 6/7` and rounded to one
decimal, and the feature snapshot reports `avg_minutes = 60`. -/
theorem predict_no_match_stats_discount (playerId : ℤ) (history : List ℚ) (std : ℚ)
    (hne : history ≠ []) :
    (predictNextRound 5 playerId history [] std).predicted_points
      = pyRound 1 (weightedPoints history * (6/7)) ∧
    min (1 : ℚ) (60/70) = 6/7 ∧
    (predictNextRound 5 playerId history [] std).features.map PredFeatures.avg_minutes
      = some 60 := by
  obtain ⟨p, ps, rfl⟩ := List.exists_cons_of_ne_nil hne
  refine ⟨?_, by norm_num, ?_⟩
  · rw [predictNextRound_cons]
    norm_num
  · rw [predictNextRound_cons]
    simp [pyRound_sixty]

theorem predict_no_match_stats_discount_witness :
    (predictNextRound 5 1 [10] [] 0).predicted_points
      = pyRound 1 (weightedPoints [10] * (6/7)) ∧
    min (1 : ℚ) (60/70) = 6/7 ∧
    (predictNextRound 5 1 [10] [] 0).features.map PredFeatures.avg_minutes = some 60 :=
  predict_no_match_stats_discount 1 [10] 0 (by simp)

theorem suggestCaptain_cons (e : ProjEntry) (es : List ProjEntry) :
    suggestCaptain (e :: es) =
      ((List.insertionSort scoreGe ((e :: es).map mkScored)).head?,
       (List.insertionSort scoreGe ((e :: es).map mkScored))[1]?) := rfl

theorem head?_orderedInsert (x : ScoredPlayer) (l : List ScoredPlayer) :
    (List.orderedInsert scoreGe x l).head? =
      some (match l with
            | [] => x
            | b :: _ => if b.score ≤ x.score then x else b) := by
  cases l with
  | nil => rfl
  | cons b t =>
    show (List.orderedInsert scoreGe x (b :: t)).head? =
      some (if b.score ≤ x.score then x else b)
    rw [List.orderedInsert]
    by_cases h : scoreGe x b
    · have h2 : b.score ≤ x.score := h
      rw [if_pos h, if_pos h2]
      rfl
    · have h2 : ¬ b.score ≤ x.score := h
      rw [if_neg h, if_neg h2]
      rfl

theorem head?_insertionSort_eq_firstMax (l : List ScoredPlayer) :
    (List.insertionSort scoreGe l).head? = firstMaxScore? l := by
  induction l with
  | nil => rfl
  | cons x xs ih =>
    rw [List.insertionSort, head?_orderedInsert]
    cases hs : List.insertionSort scoreGe xs with
    | nil =>
      have hlen := List.length_insertionSort scoreGe xs
      rw [hs] at hlen
      have hxs : xs = [] := List.length_eq_zero.mp hlen.symm
      subst hxs
      rfl
    | cons b t =>
      have hb : firstMaxScore? xs = some b := by rw [← ih, hs]; rfl
      simp only [firstMaxScore?, hb]
      by_cases h : x.score < b.score
      · rw [if_pos h, if_neg (not_le.mpr h)]
      · rw [if_neg h, if_pos (not_lt.mp h)]

/-- C3: `suggest_captain` on an empty projection set returns `(None, None)`;
on a non-empty one, the captain is the first element of the input attaining
the maximal `predicted_points * confidence` score (the stable descending
sort breaks ties by input order, so the pick is deterministic), every
candidate scores at most the captain, and the vice-captain is the
second-highest-scored player of the remaining pool — `None` when only one
projection exists. -/
theorem suggest_captain_spec (projections : List ProjEntry) (hne : projections ≠ []) :
    suggestCaptain [] = (none, none) ∧
    ∃ c, (suggestCaptain projections).1 = some c ∧
      some c = firstMaxScore? (projections.map mkScored) ∧
      c ∈ projections.map mkScored ∧
      (∀ p ∈ projections.map mkScored, p.score ≤ c.score) ∧
      (projections.length = 1 → (suggestCaptain projections).2 = none) ∧
      (2 ≤ projections.length → ∃ v l2, (suggestCaptain projections).2 = some v ∧
        List.Perm (projections.map mkScored) (c :: l2) ∧ v ∈ l2 ∧
        ∀ p ∈ l2, p.score ≤ v.score) := by
  obtain ⟨e, es, rfl⟩ := List.exists_cons_of_ne_nil hne
  refine ⟨rfl, ?_⟩
  have hsorted : List.Sorted scoreGe (List.insertionSort scoreGe ((e :: es).map mkScored)) :=
    List.sorted_insertionSort scoreGe _
  have hperm : List.Perm (List.insertionSort scoreGe ((e :: es).map mkScored))
      ((e :: es).map mkScored) := List.perm_insertionSort scoreGe _
  have hlen := List.length_insertionSort scoreGe ((e :: es).map mkScored)
  cases hc : List.insertionSort scoreGe ((e :: es).map mkScored) with
  | nil =>
    rw [hc] at hlen
    simp at hlen
  | cons c rest =>
    rw [hc] at hsorted hperm hlen
    have hcap : (suggestCaptain (e :: es)).1 = some c := by
      rw [suggestCaptain_cons, hc]
      rfl
    refine ⟨c, hcap, ?_, ?_, ?_, ?_, ?_⟩
    · rw [← head?_insertionSort_eq_firstMax, hc]
      rfl
    · exact hperm.subset (List.mem_cons_self _ _)
    · intro p hp
      have hps : p ∈ c :: rest := (hperm.mem_iff).mpr hp
      rcases List.mem_cons.mp hps with h | h
      · rw [h]
      · exact List.rel_of_sorted_cons hsorted p h
    · intro hlen1
      have hr : rest.length = 0 := by
        simp only [List.length_cons, List.length_map] at hlen
        simp only [List.length_cons] at hlen1
        omega
      have hrnil : rest = [] := List.length_eq_zero.mp hr
      subst hrnil
      rw [suggestCaptain_cons, hc]
      simp
    · intro h2
      have hr : 1 ≤ rest.length := by
        simp only [List.length_cons, List.length_map] at hlen
        simp only [List.length_cons] at h2
        omega
      cases rest with
      | nil => simp at hr
      | cons v rest2 =>
        refine ⟨v, v :: rest2, ?_, hperm.symm, List.mem_cons_self _ _, ?_⟩
        · rw [suggestCaptain_cons, hc]
          simp
        · intro p hp
          rcases List.mem_cons.mp hp with h | h
          · rw [h]
          · exact List.rel_of_sorted_cons hsorted.of_cons p h

theorem suggest_captain_spec_witness :
    suggestCaptain [] = (none, none) ∧
    ∃ c, (suggestCaptain [demoProjA, demoProjB]).1 = some c ∧
      some c = firstMaxScore? ([demoProjA, demoProjB].map mkScored) ∧
      c ∈ [demoProjA, demoProjB].map mkScored ∧
      (∀ p ∈ [demoProjA, demoProjB].map mkScored, p.score ≤ c.score) ∧
      (([demoProjA, demoProjB] : List ProjEntry).length = 1 →
        (suggestCaptain [demoProjA, demoProjB]).2 = none) ∧
      (2 ≤ ([demoProjA, demoProjB] : List ProjEntry).length →
        ∃ v l2, (suggestCaptain [demoProjA, demoProjB]).2 = some v ∧
          List.Perm ([demoProjA, demoProjB].map mkScored) (c :: l2) ∧ v ∈ l2 ∧
          ∀ p ∈ l2, p.score ≤ v.score) :=
  suggest_captain_spec [demoProjA, demoProjB] (by simp)

theorem mem_availableValues_price {availRows : List TradeRow} {bank : ℚ}
    {i : PlayerVal} (hi : i ∈ availableValues availRows bank) :
    i.price ≤ bank + 100 := by
  unfold availableValues at hi
  have hi2 := (List.perm_insertionSort valueGe _).subset hi
  have hi3 := List.mem_filter.mp hi2
  exact of_decide_eq_true hi3.2

/-- C4: every suggestion returned by `suggest_trades` trades in a player
drawn from the affordable pool, whose (effective, default-400) price is at
most `bank_balance + 100` — the source's leeway of 100. -/
theorem suggest_trades_price_bound (squadRows availRows : List TradeRow)
    (bank : ℚ) (limit : ℕ) (s : TradeSuggestion)
    (hs : s ∈ suggestTrades squadRows availRows bank limit) :
    ∃ i, i ∈ availableValues availRows bank ∧ s.trade_in_id = i.player_id ∧
      s.trade_in_name = i.name ∧ i.price ≤ bank + 100 := by
  unfold suggestTrades at hs
  have hs2 := List.mem_of_mem_take hs
  have hs3 := (List.perm_insertionSort gainGe _).subset hs2
  unfold acceptedSuggestions at hs3
  rw [List.mem_flatMap] at hs3
  obtain ⟨o, ho, hs4⟩ := hs3
  rw [List.mem_filterMap] at hs4
  obtain ⟨i, hi, hif⟩ := hs4
  by_cases hcond : 1/2 < i.value - o.value ∨ 10 < i.predicted_points - o.predicted_points
  · rw [if_pos hcond] at hif
    obtain rfl := Option.some.inj hif
    have hmem : i ∈ availableValues availRows bank := List.mem_of_mem_take hi
    exact ⟨i, hmem, rfl, rfl, mem_availableValues_price hmem⟩
  · rw [if_neg hcond] at hif
    cases hif

theorem suggest_trades_price_bound_witness :
    ∃ i, i ∈ availableValues [demoInRow] 250 ∧
      (mkTradeSuggestion (mkPlayerVal demoOutRow) (mkPlayerVal demoInRow)).trade_in_id = i.player_id ∧
      (mkTradeSuggestion (mkPlayerVal demoOutRow) (mkPlayerVal demoInRow)).trade_in_name = i.name ∧
      i.price ≤ 250 + 100 :=
  suggest_trades_price_bound [demoOutRow] [demoInRow] 250 5 _ (by
    simp only [suggestTrades, acceptedSuggestions, squadValues, availableValues,
      demoOutRow, demoInRow, mkPlayerVal, calcValue, List.map, List.filter,
      List.insertionSort, List.orderedInsert]
    norm_num
    rw [List.filterMap_cons]
    rw [if_pos (by norm_num)]
    simp [List.insertionSort, List.orderedInsert])

/-- C5: a (trade-out, trade-in) pair drawn from the bottom-3 squad players by
value and the top-10 affordable available players is accepted exactly when
`value_gain > 0.5` or `points_gain > 10`; the returned list is sorted by
projected gain descending and holds at most `limit` entries. -/
theorem suggest_trades_accept_iff (squadRows availRows : List TradeRow)
    (bank : ℚ) (limit : ℕ) :
    (∀ s, s ∈ acceptedSuggestions squadRows availRows bank ↔
      ∃ o ∈ (squadValues squadRows).take 3,
        ∃ i ∈ (availableValues availRows bank).take 10,
          (1/2 < i.value - o.value ∨ 10 < i.predicted_points - o.predicted_points) ∧
          s = mkTradeSuggestion o i) ∧
    List.Sorted gainGe (suggestTrades squadRows availRows bank limit) ∧
    (suggestTrades squadRows availRows bank limit).length ≤ limit := by
  refine ⟨?_, ?_, ?_⟩
  · intro s
    unfold acceptedSuggestions
    rw [List.mem_flatMap]
    constructor
    · rintro ⟨o, ho, hs⟩
      rw [List.mem_filterMap] at hs
      obtain ⟨i, hi, hif⟩ := hs
      by_cases hcond : 1/2 < i.value - o.value ∨ 10 < i.predicted_points - o.predicted_points
      · rw [if_pos hcond] at hif
        exact ⟨o, ho, i, hi, hcond, (Option.some.inj hif).symm⟩
      · rw [if_neg hcond] at hif
        cases hif
    · rintro ⟨o, ho, i, hi, hcond, rfl⟩
      exact ⟨o, ho, List.mem_filterMap.mpr ⟨i, hi, if_pos hcond⟩⟩
  · exact List.Pairwise.sublist (List.take_sublist _ _) (List.sorted_insertionSort gainGe _)
  · exact List.length_take_le _ _

theorem foldl_addPlayer (squad : List PlayerRec) (dist : List (ℕ × RoundCoverage)) :
    squad.foldl addPlayerToDist dist = dist.map (fun rc => (rc.1,
      { teams_on_bye := rc.2.teams_on_bye,
        players_on_bye := rc.2.players_on_bye ++ onByeFilter squad rc.1,
        players_available := rc.2.players_available ++ availFilter squad rc.1 })) := by
  induction squad generalizing dist with
  | nil =>
    simp [onByeFilter, availFilter]
  | cons p ps ih =>
    rw [List.foldl_cons, ih]
    unfold addPlayerToDist
    rw [List.map_map]
    apply List.map_congr_left
    intro rc _
    simp only [Function.comp]
    by_cases hb : 0 < getTeamByeRound p.team ∧ rc.1 = getTeamByeRound p.team
    · have hr : ¬ rc.1 ≠ getTeamByeRound p.team := by
        intro hcon
        exact hcon hb.2
      rw [if_pos hb, if_neg hr]
      simp only [onByeFilter, availFilter, List.filter_cons]
      rw [if_pos (by simpa using hb), if_neg (by simpa using hr)]
      simp
    · by_cases hr : rc.1 ≠ getTeamByeRound p.team
      · rw [if_neg hb, if_pos hr]
        simp only [onByeFilter, availFilter, List.filter_cons]
        rw [if_neg (by simpa using hb), if_pos (by simpa using hr)]
        simp
      · rw [if_neg hb, if_neg hr]
        simp only [onByeFilter, availFilter, List.filter_cons]
        rw [if_neg (by simpa using hb), if_neg (by simpa using hr)]

theorem mem_byeDistInit {rc : ℕ × RoundCoverage} (h : rc ∈ byeDistInit) :
    (13 ≤ rc.1 ∧ rc.1 ≤ 17) ∧ rc.2.players_on_bye = [] ∧ rc.2.players_available = [] := by
  simp only [byeDistInit, List.range', List.map, List.mem_cons, List.not_mem_nil, or_false] at h
  rcases h with h | h | h | h | h <;> subst h <;> simp

theorem analyze_entry {squad : List PlayerRec} {season : ℤ} {r : ℕ} {cov : RoundCoverage}
    (h : (r, cov) ∈ analyzeSquadByeCoverage squad season) :
    (13 ≤ r ∧ r ≤ 17) ∧ cov.players_on_bye = onByeFilter squad r ∧
    cov.players_available = availFilter squad r := by
  unfold analyzeSquadByeCoverage at h
  rw [foldl_addPlayer, List.mem_map] at h
  obtain ⟨rc0, h0, heq⟩ := h
  obtain ⟨⟨h13, h17⟩, hon, hav⟩ := mem_byeDistInit h0
  have h1 : rc0.1 = r := congrArg Prod.fst heq
  have h2 := congrArg Prod.snd heq
  simp only at h2
  subst h1
  subst h2
  simp [hon, hav]
  omega

theorem filter_partition_length (r : ℕ) (hr : 0 < r) (l : List PlayerRec) :
    (l.filter (fun p =>
      decide (0 < getTeamByeRound p.team ∧ r = getTeamByeRound p.team))).length +
    (l.filter (fun p => decide (r ≠ getTeamByeRound p.team))).length = l.length := by
  induction l with
  | nil => simp
  | cons q qs ih =>
    by_cases hb : r = getTeamByeRound q.team
    · have h1 : (0 < getTeamByeRound q.team ∧ r = getTeamByeRound q.team) := ⟨by omega, hb⟩
      have h2 : ¬ r ≠ getTeamByeRound q.team := by simpa using hb
      simp only [List.filter_cons]
      rw [if_pos (by simpa using h1), if_neg (by simpa using h2)]
      simp only [List.length_cons]
      omega
    · have h1 : ¬ (0 < getTeamByeRound q.team ∧ r = getTeamByeRound q.team) := by
        rintro ⟨-, hcon⟩
        exact hb hcon
      simp only [List.filter_cons]
      rw [if_neg (by simpa using h1), if_pos (by simpa using hb)]
      simp only [List.length_cons]
      omega

/-- C8: for every round entry of the bye-coverage analysis, a squad player is
in `players_on_bye` exactly when their team's bye round equals that round and
their id is in `players_available` otherwise; the two collections are
disjoint and their lengths sum to the squad size.  (Distinct player ids, the
primary-key invariant of the `id.in_` query, are assumed.) -/
theorem bye_coverage_partition (squad : List PlayerRec) (season : ℤ) (r : ℕ)
    (cov : RoundCoverage) (hmem : (r, cov) ∈ analyzeSquadByeCoverage squad season)
    (hnd : (squad.map PlayerRec.id).Nodup) :
    (∀ p ∈ squad, (p ∈ cov.players_on_bye ↔ getTeamByeRound p.team = r)) ∧
    (∀ p ∈ squad, (p.id ∈ cov.players_available ↔ getTeamByeRound p.team ≠ r)) ∧
    (∀ p ∈ squad, ¬(p ∈ cov.players_on_bye ∧ p.id ∈ cov.players_available)) ∧
    cov.players_on_bye.length + cov.players_available.length = squad.length := by
  obtain ⟨⟨h13, h17⟩, hon, hav⟩ := analyze_entry hmem
  have hiff1 : ∀ p ∈ squad, (p ∈ cov.players_on_bye ↔ getTeamByeRound p.team = r) := by
    intro p hp
    rw [hon]
    unfold onByeFilter
    rw [List.mem_filter]
    simp only [decide_eq_true_eq]
    constructor
    · rintro ⟨-, -, hb⟩
      exact hb.symm
    · intro hb
      exact ⟨hp, by omega, hb.symm⟩
  have hiff2 : ∀ p ∈ squad, (p.id ∈ cov.players_available ↔ getTeamByeRound p.team ≠ r) := by
    intro p hp
    rw [hav]
    unfold availFilter
    rw [List.mem_map]
    constructor
    · rintro ⟨q, hqf, hqid⟩
      rw [List.mem_filter] at hqf
      obtain ⟨hq, hcond⟩ := hqf
      have hcond2 : r ≠ getTeamByeRound q.team := of_decide_eq_true hcond
      have hqp : q = p := List.inj_on_of_nodup_map hnd hq hp hqid
      subst hqp
      exact hcond2.symm
    · intro hne2
      exact ⟨p, List.mem_filter.mpr ⟨hp, decide_eq_true hne2.symm⟩, rfl⟩
  refine ⟨hiff1, hiff2, ?_, ?_⟩
  · rintro p hp ⟨honb, havb⟩
    exact ((hiff2 p hp).mp havb) ((hiff1 p hp).mp honb)
  · rw [hon, hav]
    unfold onByeFilter availFilter
    rw [List.length_map]
    exact filter_partition_length r (by omega) squad

theorem bye_coverage_partition_witness :
    (demoSquadPlayer ∈ onByeFilter [demoSquadPlayer] 13 ↔
      getTeamByeRound demoSquadPlayer.team = 13) ∧
    (onByeFilter [demoSquadPlayer] 13).length +
      (availFilter [demoSquadPlayer] 13).length = 1 := by
  have h := bye_coverage_partition [demoSquadPlayer] 2024 13
    ⟨["Penrith Panthers", "Melbourne Storm", "Brisbane Broncos", "Cronulla Sharks"],
     onByeFilter [demoSquadPlayer] 13, availFilter [demoSquadPlayer] 13⟩
    (by
      unfold analyzeSquadByeCoverage
      rw [foldl_addPlayer, List.mem_map]
      refine ⟨(13, ⟨["Penrith Panthers", "Melbourne Storm", "Brisbane Broncos",
        "Cronulla Sharks"], [], []⟩), ?_, ?_⟩
      · simp [byeDistInit, List.range']
        simp [byeSchedule, List.find?]
      · simp)
    (by simp)
  exact ⟨h.1 demoSquadPlayer (by simp), by simpa using h.2.2.2⟩

theorem byeTradesForRound_used (db : List ProjRow) (season : ℤ) (avail : ℕ)
    (r : ℕ) (teams : List String) (count : ℕ) (ps : List PlayerRec) (used : ℕ) :
    (byeTradesForRound db season avail r teams count ps used).2 =
      used + (byeTradesForRound db season avail r teams count ps used).1.length := by
  induction ps generalizing used with
  | nil => simp [byeTradesForRound]
  | cons p ps ih =>
    rw [byeTradesForRound]
    by_cases h : avail ≤ used
    · rw [if_pos h]
      simp
    · rw [if_neg h]
      dsimp only
      cases hrep : findReplacement db p.positions
          (allTeams.filter (fun t => decide (t ∉ teams))) season r with
      | some rep =>
        dsimp only
        rw [ih (used + 1)]
        simp [List.length_cons]
        omega
      | none =>
        exact ih used


theorem byeTradesForRound_budget (db : List ProjRow) (season : ℤ) (avail : ℕ)
    (r : ℕ) (teams : List String) (count : ℕ) (ps : List PlayerRec) (used : ℕ)
    (h : used ≤ avail) :
    (byeTradesForRound db season avail r teams count ps used).2 ≤ avail := by
  induction ps generalizing used with
  | nil => simpa [byeTradesForRound] using h
  | cons p ps ih =>
    rw [byeTradesForRound]
    by_cases hb : avail ≤ used
    · rw [if_pos hb]
      simpa using le_antisymm h hb |>.le
    · rw [if_neg hb]
      dsimp only
      cases hrep : findReplacement db p.positions
          (allTeams.filter (fun t => decide (t ∉ teams))) season r with
      | some rep =>
        dsimp only
        exact ih (used + 1) (by omega)
      | none =>
        exact ih used h

theorem byeTradesForRound_length (db : List ProjRow) (season : ℤ) (avail : ℕ)
    (r : ℕ) (teams : List String) (count : ℕ) (ps : List PlayerRec) (used : ℕ) :
    (byeTradesForRound db season avail r teams count ps used).1.length ≤ ps.length := by
  induction ps generalizing used with
  | nil => simp [byeTradesForRound]
  | cons p ps ih =>
    rw [byeTradesForRound]
    by_cases hb : avail ≤ used
    · rw [if_pos hb]
      simp
    · rw [if_neg hb]
      dsimp only
      cases hrep : findReplacement db p.positions
          (allTeams.filter (fun t => decide (t ∉ teams))) season r with
      | some rep =>
        dsimp only
        simp only [List.length_cons]
        exact Nat.succ_le_succ (ih (used + 1))
      | none =>
        exact le_trans (ih used) (by simp)

theorem byeTradesForRound_mem (db : List ProjRow) (season : ℤ) (avail : ℕ)
    (r : ℕ) (teams : List String) (count : ℕ) (ps : List PlayerRec) (used : ℕ)
    (s : ByeTradeSuggestion)
    (hs : s ∈ (byeTradesForRound db season avail r teams count ps used).1) :
    s.round = r - 1 ∧ s.trade_out.bye_round = r ∧
    s.priority = (if 3 < count then "high" else "medium") := by
  induction ps generalizing used with
  | nil => simp [byeTradesForRound] at hs
  | cons p ps ih =>
    rw [byeTradesForRound] at hs
    by_cases hb : avail ≤ used
    · rw [if_pos hb] at hs
      simp at hs
    · rw [if_neg hb] at hs
      dsimp only at hs
      cases hrep : findReplacement db p.positions
          (allTeams.filter (fun t => decide (t ∉ teams))) season r with
      | some rep =>
        rw [hrep] at hs
        dsimp only at hs
        rcases List.mem_cons.mp hs with h | h
        · subst h
          exact ⟨rfl, rfl, rfl⟩
        · exact ih (used + 1) h
      | none =>
        rw [hrep] at hs
        exact ih used hs


theorem byeTradesLoop_length (db : List ProjRow) (season : ℤ) (avail : ℕ)
    (l : List (ℕ × RoundCoverage)) (used : ℕ) (h : used ≤ avail) :
    (byeTradesLoop db season avail l used).length ≤ avail - used := by
  induction l generalizing used with
  | nil => simp [byeTradesLoop]
  | cons rc rest ih =>
    obtain ⟨r, cov⟩ := rc
    rw [byeTradesLoop]
    by_cases hb : cov.players_on_bye.length ≤ 2
    · rw [if_pos hb]
      exact ih used h
    · rw [if_neg hb]
      dsimp only
      rw [List.length_append]
      have hu := byeTradesForRound_used db season avail r cov.teams_on_bye
        cov.players_on_bye.length (cov.players_on_bye.take (min 2 cov.players_on_bye.length)) used
      have hbud := byeTradesForRound_budget db season avail r cov.teams_on_bye
        cov.players_on_bye.length (cov.players_on_bye.take (min 2 cov.players_on_bye.length)) used h
      have hrest := ih (byeTradesForRound db season avail r cov.teams_on_bye
        cov.players_on_bye.length (cov.players_on_bye.take (min 2 cov.players_on_bye.length)) used).2 hbud
      omega

theorem byeTradesLoop_mem (db : List ProjRow) (season : ℤ) (avail : ℕ)
    (l : List (ℕ × RoundCoverage)) (used : ℕ) (s : ByeTradeSuggestion)
    (hs : s ∈ byeTradesLoop db season avail l used) :
    ∃ rc ∈ l, 2 < rc.2.players_on_bye.length ∧ s.trade_out.bye_round = rc.1 ∧
      s.round = rc.1 - 1 ∧
      s.priority = (if 3 < rc.2.players_on_bye.length then "high" else "medium") := by
  induction l generalizing used with
  | nil => simp [byeTradesLoop] at hs
  | cons rc rest ih =>
    obtain ⟨r, cov⟩ := rc
    rw [byeTradesLoop] at hs
    by_cases hb : cov.players_on_bye.length ≤ 2
    · rw [if_pos hb] at hs
      obtain ⟨rc2, hrc2, hrest⟩ := ih used hs
      exact ⟨rc2, List.mem_cons_of_mem _ hrc2, hrest⟩
    · rw [if_neg hb] at hs
      dsimp only at hs
      rcases List.mem_append.mp hs with h | h
      · obtain ⟨h1, h2, h3⟩ := byeTradesForRound_mem db season avail r cov.teams_on_bye
          cov.players_on_bye.length (cov.players_on_bye.take (min 2 cov.players_on_bye.length))
          used s h
        exact ⟨(r, cov), List.mem_cons_self _ _, (by omega : 2 < cov.players_on_bye.length), h2, h1, h3⟩
      · obtain ⟨rc2, hrc2, hrest⟩ := ih _ h
        exact ⟨rc2, List.mem_cons_of_mem _ hrc2, hrest⟩

theorem byeTradesLoop_count (db : List ProjRow) (season : ℤ) (avail : ℕ)
    (l : List (ℕ × RoundCoverage)) (used : ℕ)
    (hnd : (l.map Prod.fst).Nodup) (r : ℕ) :
    ((byeTradesLoop db season avail l used).filter
      (fun s => decide (s.trade_out.bye_round = r))).length ≤ 2 := by
  induction l generalizing used with
  | nil => simp [byeTradesLoop]
  | cons rc rest ih =>
    obtain ⟨r0, cov⟩ := rc
    have hnd2 : (rest.map Prod.fst).Nodup := (List.nodup_cons.mp (by simpa using hnd)).2
    have hr0 : r0 ∉ rest.map Prod.fst := (List.nodup_cons.mp (by simpa using hnd)).1
    rw [byeTradesLoop]
    by_cases hb : cov.players_on_bye.length ≤ 2
    · rw [if_pos hb]
      exact ih used hnd2
    · rw [if_neg hb]
      dsimp only
      rw [List.filter_append, List.length_append]
      have hinner : ((byeTradesForRound db season avail r0 cov.teams_on_bye
          cov.players_on_bye.length
          (cov.players_on_bye.take (min 2 cov.players_on_bye.length)) used).1.filter
            (fun s => decide (s.trade_out.bye_round = r))).length ≤ 2 := by
        refine le_trans (List.length_filter_le _ _) (le_trans (byeTradesForRound_length
          db season avail r0 cov.teams_on_bye cov.players_on_bye.length _ used) ?_)
        rw [List.length_take]
        omega
      by_cases heq : r0 = r
      · subst heq
        have hrest0 : ((byeTradesLoop db season avail rest
            (byeTradesForRound db season avail r0 cov.teams_on_bye
              cov.players_on_bye.length
              (cov.players_on_bye.take (min 2 cov.players_on_bye.length)) used).2).filter
            (fun s => decide (s.trade_out.bye_round = r0))).length = 0 := by
          rw [List.length_eq_zero, List.filter_eq_nil_iff]
          intro s hsm
          obtain ⟨rc2, hrc2, -, hbye, -, -⟩ := byeTradesLoop_mem db season avail rest _ s hsm
          simp only [decide_eq_true_eq]
          intro hcon
          exact hr0 (List.mem_map.mpr ⟨rc2, hrc2, by rw [← hbye, hcon]⟩)
        omega
      · have hinner0 : ((byeTradesForRound db season avail r0 cov.teams_on_bye
            cov.players_on_bye.length
            (cov.players_on_bye.take (min 2 cov.players_on_bye.length)) used).1.filter
              (fun s => decide (s.trade_out.bye_round = r))).length = 0 := by
          rw [List.length_eq_zero, List.filter_eq_nil_iff]
          intro s hsm
          obtain ⟨-, hbye, -⟩ := byeTradesForRound_mem db season avail r0 cov.teams_on_bye
            cov.players_on_bye.length _ used s hsm
          simp only [decide_eq_true_eq]
          intro hcon
          exact heq (by rw [← hbye, hcon])
        have hrest2 := ih (byeTradesForRound db season avail r0 cov.teams_on_bye
          cov.players_on_bye.length
          (cov.players_on_bye.take (min 2 cov.players_on_bye.length)) used).2 hnd2
        omega


theorem analyze_keys (squad : List PlayerRec) (season : ℤ) :
    (analyzeSquadByeCoverage squad season).map Prod.fst = [13, 14, 15, 16, 17] := by
  unfold analyzeSquadByeCoverage
  rw [foldl_addPlayer, List.map_map]
  rfl

/-- C9: `suggest_bye_trades` never emits a suggestion for a window round
with at most 2 players on bye, emits at most 2 suggestions per round and at
most `trades_available` in total; each suggestion recommends trading in the
round before the bye, and its priority is "high" exactly when that round's
on-bye count exceeds 3, else "medium". -/
theorem suggest_bye_trades_spec (db : List ProjRow) (squad : List PlayerRec)
    (season : ℤ) (avail : ℕ) :
    (suggestByeTrades db squad season avail).length ≤ avail ∧
    (∀ s ∈ suggestByeTrades db squad season avail,
       (13 ≤ s.trade_out.bye_round ∧ s.trade_out.bye_round ≤ 17) ∧
       2 < onByeCount squad s.trade_out.bye_round ∧
       s.round = s.trade_out.bye_round - 1 ∧
       s.priority = (if 3 < onByeCount squad s.trade_out.bye_round then "high" else "medium")) ∧
    (∀ r : ℕ, ((suggestByeTrades db squad season avail).filter
        (fun s => decide (s.trade_out.bye_round = r))).length ≤ 2) := by
  refine ⟨?_, ?_, ?_⟩
  · have h := byeTradesLoop_length db season avail
      (List.insertionSort countGe (analyzeSquadByeCoverage squad season)) 0 (Nat.zero_le _)
    unfold suggestByeTrades
    omega
  · intro s hs
    unfold suggestByeTrades at hs
    obtain ⟨rc, hrc, hcount, hbye, hround, hpri⟩ := byeTradesLoop_mem db season avail _ 0 s hs
    have hrc2 : rc ∈ analyzeSquadByeCoverage squad season :=
      (List.perm_insertionSort countGe _).subset hrc
    obtain ⟨r, cov⟩ := rc
    obtain ⟨⟨h13, h17⟩, hon, hav⟩ := analyze_entry hrc2
    simp only at hbye hround hpri hcount
    rw [hbye]
    have hcnt : onByeCount squad r = cov.players_on_bye.length := by
      unfold onByeCount
      rw [← hon]
    refine ⟨⟨h13, h17⟩, ?_, hround, ?_⟩
    · rw [hcnt]
      exact hcount
    · rw [hcnt]
      exact hpri
  · intro r
    unfold suggestByeTrades
    apply byeTradesLoop_count
    have hperm : List.Perm
        ((List.insertionSort countGe (analyzeSquadByeCoverage squad season)).map Prod.fst)
        ((analyzeSquadByeCoverage squad season).map Prod.fst) :=
      (List.perm_insertionSort countGe _).map Prod.fst
    rw [hperm.nodup_iff, analyze_keys]
    simp

end NrlFantasy
